import Mathlib

/-!
Verification of the Kronecker-structured Laplace GP solver (`kronecker.py`).

The numerical code is shallowly embedded over `ℚ`: tensors become `List ℚ`,
matrices become `Mat` (row-major flat data), and the three `tf.while_loop`s
become a fuel-bounded `whileLoop` (every loop in the source carries an
iteration counter bounded by a `maxIt` guard, so a fuel of `maxIt + 1`
reproduces `tf.while_loop` exactly).  Transcendental or backend-supplied
operations that the claims never have to evaluate (`tf.log`, `tf.sqrt`,
`tf.self_adjoint_eig`, the autodiff derivatives of the likelihood, the kernel
evaluator) are abstract function parameters of the model.  A raised Python
exception is modelled as a `none` result: in particular the committed
solver wires its `CGOptimizer` with no `cg_prod` callback (line 44), so
the Newton `step` raises `TypeError` at the CG solve on every invocation
and `step`/`run` return `Option` values that are `none` on every raising
path.  IEEE NaN/Inf behaviour, where a claim is about it, is modelled
separately with `Option ℚ` scalars (`none` = non-finite).
-/

/-- Fuel-bounded while loop: models `tf.while_loop(cond, body, vars)`.
With fuel at least the iteration bound of the loop the result is exact. -/
def whileLoop {σ : Type} (c : σ → Bool) (b : σ → σ) : Nat → σ → σ
  | 0, st => st
  | fuel + 1, st => if c st then whileLoop c b fuel (b st) else st

/-- Invariants propagate through `whileLoop`. -/
theorem whileLoop_inv {σ : Type} (P : σ → Prop) (c : σ → Bool) (b : σ → σ)
    (hb : ∀ st, P st → P (b st)) :
    ∀ (fuel : Nat) (st : σ), P st → P (whileLoop c b fuel st) := by
  intro fuel
  induction fuel with
  | zero => intro st h; exact h
  | succ n ih =>
    intro st h
    unfold whileLoop
    by_cases hc : c st
    · simp only [hc, if_true]
      exact ih (b st) (hb st h)
    · simp only [hc, if_false]
      exact h

/-- Fuel-bounded while loop whose body may raise: a raised exception
(a `none` body result) propagates out of the loop, exactly as a Python
exception propagates out of an eager `tf.while_loop`. -/
def whileLoopE {σ : Type} (c : σ → Bool) (b : σ → Option σ) : Nat → σ → Option σ
  | 0, st => some st
  | fuel + 1, st => if c st then (b st).bind (whileLoopE c b fuel) else some st

/-- Value of `sys.float_info.max`, the largest double, as an exact rational. -/
def fmax : ℚ := (2 ^ 53 - 1) * 2 ^ 971

/-- Dense row-major matrix of rationals (models a 2-D `tf` tensor). -/
structure Mat where
  rows : Nat
  cols : Nat
  data : List ℚ
  deriving Repr, DecidableEq

/-- Entry `A[i, j]` of the row-major data. -/
def Mat.entry (A : Mat) (i j : Nat) : ℚ := A.data.getD (i * A.cols + j) 0

/-- Row `i` of `A` as a list. -/
def Mat.rowAt (A : Mat) (i : Nat) : List ℚ := (A.data.drop (i * A.cols)).take A.cols

/-- Column `j` of `A` as a list (models `X[:, j]`). -/
def Mat.colAt (A : Mat) (j : Nat) : List ℚ :=
  (List.range A.rows).map (fun i => A.entry i j)

/-- Models `tf.transpose` on a 2-D tensor. -/
def Mat.transpose (A : Mat) : Mat :=
  Mat.mk A.cols A.rows
    (((List.range A.cols).map (fun i => (List.range A.rows).map (fun j => A.entry j i))).flatten)

/-- Models `tf.matmul` (defined for shape-correct inputs, `A.cols = B.rows`;
all uses in the theorems below are shape-correct). -/
def matmul (A B : Mat) : Mat :=
  Mat.mk A.rows B.cols
    (((List.range A.rows).map (fun i =>
      (List.range B.cols).map (fun j =>
        (((List.range A.cols).map (fun k => A.entry i k * B.entry k j))).sum))).flatten)

/-- Models `tf.concat(axis=1)` of two blocks with the same number of rows. -/
def hconcat (A B : Mat) : Mat :=
  Mat.mk A.rows (A.cols + B.cols)
    (((List.range A.rows).map (fun i => A.rowAt i ++ B.rowAt i)).flatten)

/-- Models `tf.concat(axis=0)` of two blocks with the same number of columns. -/
def vconcat (A B : Mat) : Mat :=
  Mat.mk (A.rows + B.rows) A.cols (A.data ++ B.data)

/-- Scalar multiple `c * B` of a matrix (models `A[i, j] * B`). -/
def smulM (c : ℚ) (B : Mat) : Mat := Mat.mk B.rows B.cols (B.data.map (fun x => c * x))

/-- Source function `kron(A, B)` (kronecker.py lines 493-516): Kronecker product built,
as in the source, by concatenating the scaled blocks `A[i, j] * B`
row by row. -/
def kron (A B : Mat) : Mat :=
  (List.range A.rows).foldl
    (fun out i =>
      vconcat out
        ((List.range A.cols).foldl
          (fun row j => hconcat row (smulM (A.entry i j) B))
          (Mat.mk B.rows 0 [])))
    (Mat.mk 0 (A.cols * B.cols) [])

/-- Source function `kron_list(matrices)` (lines 518-532): left fold of `kron`.  The source
starts from `kron(matrices[0], matrices[1])`, so a list with fewer than two
matrices raises `IndexError`; that failure is `none` here. -/
def kron_list (matrices : List Mat) : Option Mat :=
  match matrices with
  | m0 :: m1 :: rest => some (rest.foldl kron (kron m0 m1))
  | _ => none

/-- Source function `kron_mvp(Ks, v)` (lines 534-554), translated literally: reshape `v`
to `(V_rows, V_cols)` with `V_rows = Ks[0].rows` (Python 2 integer
division for `V_cols`), transpose, then for each factor in reverse order
multiply and reshape the transposed product back to `[V_rows, V_cols]`,
and finally flatten the transpose.  The source indexes `Ks[0]`, so the
empty list (which never occurs in the solver) is given the vacuous
value `v`. -/
def kron_mvp (Ks : List Mat) (v : List ℚ) : List ℚ :=
  match Ks with
  | [] => v
  | K0 :: _ =>
    let vRows := K0.rows
    let vCols := v.length / vRows
    let V := (Mat.mk vRows vCols v).transpose
    let mvp := Ks.reverse.foldl
      (fun m k => Mat.mk vRows vCols ((matmul k m).transpose).data) V
    mvp.transpose.data

/-- Ordinary matrix-vector product `M · v`. -/
def matVec (M : Mat) (v : List ℚ) : List ℚ :=
  (List.range M.rows).map (fun i =>
    (((List.range M.cols).map (fun k => M.entry i k * v.getD k 0))).sum)

/-- The likelihood collaborator: elementwise `log_like(y, f)` together with
its first and second derivatives in `f` (in the source these are obtained
with `tfe.gradients_function`; the autodiff results are model inputs). -/
structure Likelihood where
  logLike : ℚ → ℚ → ℚ
  grad : ℚ → ℚ → ℚ
  hess : ℚ → ℚ → ℚ

/-- State and collaborators of `KroneckerSolver` (kronecker.py lines 14-48).
`sqrtF`, `logF`, `eigF` and `kernelEval` model the backend operations `tf.sqrt`,
`tf.log`, `tf.self_adjoint_eig` (eigenvalue part) and `kernel.eval`.
The optimizer the constructor wires in (line 44, `self.opt = CGOptimizer()`)
carries no matrix-vector callback; see `KroneckerSolver.optCgProd`.  The
`CGOptimizer` class itself is modelled below, parameterised by its
callback as its constructor genuinely is. -/
structure KroneckerSolver where
  like : Likelihood
  Ks : List Mat
  mu : List ℚ
  y : List ℚ
  X : Mat
  tau : ℚ
  k_diag : Option (List ℚ)
  mask : Option (List Bool)
  sqrtF : ℚ → ℚ
  logF : ℚ → ℚ
  eigF : Mat → List ℚ
  kernelEval : List ℚ → List ℚ → Mat
  alpha : List ℚ
  f : List ℚ
  W : List ℚ
  grads : List ℚ

/-- Models `tf.boolean_mask(v, m)`: keep the entries of `v` at `true` positions. -/
def maskF (m : List Bool) (v : List ℚ) : List ℚ :=
  (List.zip m v).filterMap (fun p => if p.1 then some p.2 else none)

/-- Class `CGOptimizer` (lines 342-346) with its matrix-vector callback.
(The solver constructor leaves the callback `None`, see
`KroneckerSolver`; the class itself is modelled as parameterised by it.) -/
structure CGOptimizer where
  cg_prod : List ℚ → List ℚ

/-- The seven loop variables of `cg` (lines 348-438). -/
structure CGState where
  p : List ℚ
  count : Nat
  x : List ℚ
  r : List ℚ
  max_it : Nat
  precondition : Option (List ℚ)
  z : List ℚ

/-- Method `cg_converged` (lines 348-363): continue while `Σ r⊙r > 1e-5` and
`count < max_it`. -/
def CGOptimizer.cg_converged (st : CGState) : Bool :=
  decide ((List.zipWith (fun a b => a * b) st.r st.r).sum > (1:ℚ)/100000) &&
    decide (st.count < st.max_it)

/-- Method `cg_body` (lines 365-406): one (optionally preconditioned) CG step.
Over `ℚ` the unguarded step-size division at a vanishing denominator
follows the Lean convention `q / 0 = 0`; the IEEE artifact behaviour of
that division is modelled exactly in `cg_body_f` below. -/
def CGOptimizer.cg_body (o : CGOptimizer) (st : CGState) : CGState :=
  let count := st.count + 1
  let Bp := o.cg_prod st.p
  let norm_k := match st.precondition with
    | some _ => (List.zipWith (fun a b => a * b) st.r st.z).sum
    | none => (List.zipWith (fun a b => a * b) st.r st.r).sum
  let alpha := norm_k / (List.zipWith (fun a b => a * b) Bp st.p).sum
  let x := List.zipWith (fun a b => a + b) st.x (st.p.map (fun v => alpha * v))
  let r := List.zipWith (fun a b => a - b) st.r (Bp.map (fun v => alpha * v))
  let z := match st.precondition with
    | some pc => List.zipWith (fun c ri => 1 / c * ri) pc r
    | none => st.z
  let norm_next := match st.precondition with
    | some _ => (List.zipWith (fun a b => a * b) z r).sum
    | none => (List.zipWith (fun a b => a * b) r r).sum
  let beta := norm_next / norm_k
  let p := match st.precondition with
    | some _ => List.zipWith (fun a b => a + b) z (st.p.map (fun v => beta * v))
    | none => List.zipWith (fun a b => a + b) r (st.p.map (fun v => beta * v))
  { st with p := p, count := count, x := x, r := r, z := z }

/-- Lines 420-434 of `cg`: the initial CG state.  `x` defaults to zeros,
`r = b - A x`, `p` (and `z`) from the optional diagonal preconditioner;
`max_it = 2 * len(b)`.  When no preconditioner is given the source
threads its `z = None` argument through the loop untouched; it is `[]`
here (never read on that branch). -/
def CGOptimizer.cgInit (o : CGOptimizer) (b : List ℚ) (x0 : Option (List ℚ))
    (precondition : Option (List ℚ)) : CGState :=
  let n := b.length
  let x := match x0 with | none => List.replicate n (0:ℚ) | some xs => xs
  let r := List.zipWith (fun u v => u - v) b (o.cg_prod x)
  let z := match precondition with
    | some pc => List.zipWith (fun c ri => 1 / c * ri) pc r
    | none => []
  let p := match precondition with | some _ => z | none => r
  ⟨p, 0, x, r, 2 * n, precondition, z⟩

/-- Final state of the `tf.while_loop` of `cg` (lines 435-436): the body
increments `count` and the guard needs `count < 2n`, so fuel `2n + 1` is
exact. -/
def CGOptimizer.cgLoop (o : CGOptimizer) (b : List ℚ) (x0 : Option (List ℚ))
    (precondition : Option (List ℚ)) : CGState :=
  whileLoop CGOptimizer.cg_converged o.cg_body (2 * b.length + 1) (o.cgInit b x0 precondition)

/-- Method `cg` (lines 408-438): returns `fin[2]`, the solution component of the
final loop state, and nothing else. -/
def CGOptimizer.cg (o : CGOptimizer) (b : List ℚ) (x0 : Option (List ℚ))
    (precondition : Option (List ℚ)) : List ℚ :=
  (whileLoop CGOptimizer.cg_converged o.cg_body (2 * b.length + 1)
    (o.cgInit b x0 precondition)).x

/-- The latent values computed from a candidate `alpha`:
`kron_mvp(Ks, a) + mu`, plus `a ⊙ k_diag` when `k_diag` is configured
(lines 83-86 with `self.mu`, and lines 204-207 with the `mu` argument). -/
def latentF (s : KroneckerSolver) (muP a : List ℚ) : List ℚ :=
  let f0 := List.zipWith (fun u v => u + v) (kron_mvp s.Ks a) muP
  match s.k_diag with
  | some d => List.zipWith (fun u v => u + v) f0 (List.zipWith (fun u v => u * v) a d)
  | none => f0

/-- The objective `psi = -Σ log_like(y, f) + ½ Σ a ⊙ (f - mu)` of lines
88-97 (and identically lines 209-219): the masked branch reads the
fields `y` and `mu` of the solver itself, the unmasked branch the `y`/`mu`
arguments in scope at each call site. -/
def objective (s : KroneckerSolver) (yP muP a f : List ℚ) : ℚ :=
  match s.mask with
  | some m =>
    -(List.zipWith s.like.logLike (maskF m s.y) (maskF m f)).sum +
      (1/2) * (List.zipWith (fun u v => u * v) (maskF m a)
        (List.zipWith (fun u v => u - v) (maskF m f) (maskF m s.mu))).sum
  | none =>
    -(List.zipWith s.like.logLike yP f).sum +
      (1/2) * (List.zipWith (fun u v => u * v) a (List.zipWith (fun u v => u - v) f muP)).sum

/-- Objective of the line-search candidate `alpha + step * deltaAlpha`
(lines 202-219 as a function of the step size). -/
def cand_objective (s : KroneckerSolver) (yP muP alpha deltaAlpha : List ℚ) (step : ℚ) : ℚ :=
  let alphaSearch := List.zipWith (fun a d => a + step * d) alpha deltaAlpha
  objective s yP muP alphaSearch (latentF s muP alphaSearch)

/-- The twelve loop variables of the line search (lines 181-271). -/
structure LS where
  objPrev : ℚ
  objSearch : ℚ
  minObj : ℚ
  alpha : List ℚ
  deltaAlpha : List ℚ
  y : List ℚ
  stepSize : ℚ
  gradNorm : ℚ
  maxIt : Nat
  t : Nat
  mu : List ℚ
  optStep : ℚ

/-- Method `search_step` (lines 181-229): evaluate the candidate at the current
step size, track the running minimum and its step, decay the step by
`tau`, advance `t`. -/
def KroneckerSolver.search_step (s : KroneckerSolver) (st : LS) : LS :=
  let alphaSearch := List.zipWith (fun a d => a + st.stepSize * d) st.alpha st.deltaAlpha
  let fSearch := latentF s st.mu alphaSearch
  let objSearch := objective s st.y st.mu alphaSearch fSearch
  let optStep := if st.minObj > objSearch then st.stepSize else st.optStep
  let minObj := if st.minObj > objSearch then objSearch else st.minObj
  { st with objSearch := objSearch, optStep := optStep, minObj := minObj,
            stepSize := s.tau * st.stepSize, t := st.t + 1 }

/-- Method `converge_cond` (lines 232-240): continue while `t < max_it` and
`obj_prev - obj_search < step_size * t`. -/
def KroneckerSolver.converge_cond (st : LS) : Bool :=
  decide (st.t < st.maxIt) && decide (st.objPrev - st.objSearch < st.stepSize * (st.t : ℚ))

/-- Method `line_search` (lines 244-271): initial step 5.0, `obj_search`
initialised to `sys.float_info.max`, `min_obj` to the previous
objective, `opt_step` to 0, `t` to 1; returns `(res[2], res[-1])`,
i.e. the pair (minimum objective, optimal step). -/
def KroneckerSolver.line_search (s : KroneckerSolver) (alpha deltaAlpha y : List ℚ)
    (objPrev : ℚ) (maxIt : Nat) (mu : List ℚ) : ℚ × ℚ :=
  ((whileLoop KroneckerSolver.converge_cond s.search_step maxIt
      { objPrev := objPrev, objSearch := fmax, minObj := objPrev,
        alpha := alpha, deltaAlpha := deltaAlpha, y := y, stepSize := 5,
        gradNorm := (List.zipWith (fun a b => a * b) alpha alpha).sum,
        maxIt := maxIt, t := 1, mu := mu, optStep := 0 }).minObj,
   (whileLoop KroneckerSolver.converge_cond s.search_step maxIt
      { objPrev := objPrev, objSearch := fmax, minObj := objPrev,
        alpha := alpha, deltaAlpha := deltaAlpha, y := y, stepSize := 5,
        gradNorm := (List.zipWith (fun a b => a * b) alpha alpha).sum,
        maxIt := maxIt, t := 1, mu := mu, optStep := 0 }).optStep)

/-- Line 83-86: the latent values stored in `self.f` at the top of `step`. -/
def KroneckerSolver.newF (s : KroneckerSolver) : List ℚ := latentF s s.mu s.alpha

/-- Lines 88-97: the objective `psi` of the current iteration. -/
def KroneckerSolver.psi0 (s : KroneckerSolver) : ℚ := objective s s.y s.mu s.alpha s.newF

/-- Line 104: elementwise gradient of the log-likelihood at `(y, f)`. -/
def KroneckerSolver.newGrads (s : KroneckerSolver) : List ℚ :=
  List.zipWith s.like.grad s.y s.newF

/-- Lines 105-106: `W = -hess`. -/
def KroneckerSolver.newW (s : KroneckerSolver) : List ℚ :=
  (List.zipWith s.like.hess s.y s.newF).map (fun h => -h)

/-- Line 109: Newton right-hand side `b = W ⊙ (f - mu) + grads`. -/
def KroneckerSolver.newtonB (s : KroneckerSolver) : List ℚ :=
  List.zipWith (fun u v => u + v)
    (List.zipWith (fun u v => u * v) s.newW (List.zipWith (fun u v => u - v) s.newF s.mu))
    s.newGrads

/-- Line 44 of the constructor: `self.opt = CGOptimizer()` — the
matrix-vector callback of the optimizer the solver actually wires in is
`None`.  (The evidently intended callback, `KroneckerSolver.cg_prod` of
line 172, is never hooked up.) -/
def KroneckerSolver.optCgProd : Option (List ℚ → List ℚ) := none

/-- Lines 111-114 with the line-44 wiring: `z = self.opt.cg(W^{-1/2} ⊙ b)`
(preconditioned by `k_diag` when configured).  Inside `cg`, line 426
calls `self.cg_prod(x)`; since the callback of the optimizer of the
solver is `None` (see `KroneckerSolver.optCgProd`), that call raises
`TypeError` on every invocation and the solve never yields a value —
modelled by the `none` branch. -/
def KroneckerSolver.cgZ (s : KroneckerSolver) : Option (List ℚ) :=
  KroneckerSolver.optCgProd.map (fun prod =>
    CGOptimizer.cg ⟨prod⟩
      (List.zipWith (fun w b => 1 / s.sqrtF w * b) s.newW s.newtonB) none s.k_diag)

/-- Line 116, given a solve result `z`: Newton direction
`delta_alpha = W^{1/2} ⊙ z - alpha`. -/
def KroneckerSolver.delta_alphaZ (s : KroneckerSolver) (z : List ℚ) : List ℚ :=
  List.zipWith (fun u v => u - v)
    (List.zipWith (fun w zi => s.sqrtF w * zi) s.newW z) s.alpha

/-- Lines 118-119, given a solve result `z`: the step size returned by
the line search (called with `max_it = 20`). -/
def KroneckerSolver.chosenStepZ (s : KroneckerSolver) (z : List ℚ) : ℚ :=
  (s.line_search s.alpha (s.delta_alphaZ z) s.y s.psi0 20 s.mu).2

/-- Method `step` (lines 69-131) as committed: lines 83-109 compute `f`,
`psi`, the gradients, `W` and the Newton right-hand side (and assign
`self.f`, `self.grads`, `self.W`), then the CG solve of lines 111-114
raises `TypeError` (`cgZ` is `none`, see there), so the method never
returns and the direction/line-search/update of lines 116-131 are dead
code; a `none` result models the raised exception.  (Line 127 would
accept `alpha + delta_alpha * step_size` only when `prev - psi > 1e-5`;
the line-128 NaN floor is modelled in isolation by
`alphaCondUpdate`/`alphaUpdateNaN` below.) -/
def KroneckerSolver.step (s : KroneckerSolver) (max_it it : Nat) (prev _delta : ℚ) :
    Option (KroneckerSolver × Nat × Nat × ℚ × ℚ) :=
  (s.cgZ).map (fun z =>
    ({ s with
        f := s.newF
        grads := s.newGrads
        W := s.newW
        alpha := if prev - s.psi0 > 1/100000
          then List.zipWith (fun a d => a + d * s.chosenStepZ z) s.alpha (s.delta_alphaZ z)
          else s.alpha },
      max_it, it + 1, s.psi0, prev - s.psi0))

/-- Method `conv` (lines 134-147): continue while `it < max_it` and `delta > 1e-5`. -/
def KroneckerSolver.conv (max_it it : Nat) (delta : ℚ) : Bool :=
  decide (it < max_it) && decide (delta > (1:ℚ)/100000)

/-- Lines 161-165 of `run`: the Newton `tf.while_loop` from `it = 0`,
`prev = delta = sys.float_info.max`.  The body increments `it` and the
guard needs `it < max_it`, so fuel `max_it + 1` is exact; a `TypeError`
raised by `step` propagates out (`none`). -/
def KroneckerSolver.runLoop (s : KroneckerSolver) (max_it : Nat) :
    Option (KroneckerSolver × Nat × Nat × ℚ × ℚ) :=
  whileLoopE
    (fun st : KroneckerSolver × Nat × Nat × ℚ × ℚ =>
      KroneckerSolver.conv st.2.1 st.2.2.1 st.2.2.2.2)
    (fun st => st.1.step st.2.1 st.2.2.1 st.2.2.2.1 st.2.2.2.2)
    (max_it + 1)
    (s, max_it, 0, fmax, fmax)

/-- Method `run` (lines 150-169): iterate `step` under `conv`, then — if
no iteration raised — overwrite `self.f` with `kron_mvp(Ks, alpha) + mu`
(no `k_diag` term) at line 166 and recompute the gradients there. -/
def KroneckerSolver.run (s : KroneckerSolver) (max_it : Nat) :
    Option (KroneckerSolver × Nat × Nat × ℚ × ℚ) :=
  (s.runLoop max_it).map (fun fin =>
    ({ fin.1 with
        f := List.zipWith (fun u v => u + v) (kron_mvp fin.1.Ks fin.1.alpha) fin.1.mu,
        grads := List.zipWith fin.1.like.grad fin.1.y
          (List.zipWith (fun u v => u + v) (kron_mvp fin.1.Ks fin.1.alpha) fin.1.mu) },
      fin.2.1, fin.2.2.1, fin.2.2.2.1, fin.2.2.2.2))

/-- Method `marginal` (lines 274-309): per-factor eigenvalues as column vectors,
combined with `kron_list` and squeezed; `none` when `kron_list` is
undefined (fewer than two factors: the source indexes `matrices[1]`). -/
def KroneckerSolver.marginal (s : KroneckerSolver) (Ks_new : Option (List Mat)) : Option ℚ :=
  let Ks := match Ks_new with | none => s.Ks | some ks => ks
  let eigs := Ks.map (fun K => Mat.mk K.rows 1 (s.eigF K))
  match kron_list eigs with
  | none => none
  | some eigM =>
    let eig_K := eigM.data
    match s.mask with
    | some m =>
      some (-(1/2) * (List.zipWith (fun u v => u * v) (maskF m s.alpha)
              (List.zipWith (fun u v => u - v) (maskF m s.f) (maskF m s.mu))).sum -
            (1/2) * ((List.zipWith (fun u v => u * v) (maskF m eig_K) (maskF m s.W)).map
              (fun v => s.logF (1 + v))).sum +
            (List.zipWith s.like.logLike (maskF m s.y) (maskF m s.f)).sum)
    | none =>
      some (-(1/2) * (List.zipWith (fun u v => u * v) s.alpha
              (List.zipWith (fun u v => u - v) s.f s.mu)).sum -
            (1/2) * ((List.zipWith (fun u v => u * v) eig_K s.W).map
              (fun v => s.logF (1 + v))).sum +
            (List.zipWith s.like.logLike s.y s.f).sum)

/-- Python iteration over a plain `int`: `for d in self.X.shape[1]`
(line 330) raises `TypeError: int object is not iterable`, so no index
list is ever produced. -/
def pyIterInt (_n : Nat) : Option (List Nat) := none

/-- Insertion into a sorted list (for `np.unique`). -/
def insertSorted (x : ℚ) : List ℚ → List ℚ
  | [] => [x]
  | y :: ys => if x ≤ y then x :: y :: ys else y :: insertSorted x ys

/-- Models `np.unique`: the distinct values in ascending order. -/
def uniqueSorted (l : List ℚ) : List ℚ := l.dedup.foldr insertSorted []

/-- Method `predict_mean` (lines 328-337), translated with its line-330 slip
intact: the comprehension iterates over the integer `self.X.shape[1]`
itself (not `range(...)`), so `pyIterInt` aborts the call before the
cross-covariances, `kron_list` and the inner product with `alpha` are
ever computed. -/
def KroneckerSolver.predict_mean (s : KroneckerSolver) (x_new : Mat) : Option ℚ :=
  (pyIterInt s.X.cols).bind (fun ds =>
    let k_dims := ds.map (fun d => s.kernelEval (uniqueSorted (s.X.colAt d)) (x_new.colAt d))
    (kron_list k_dims).map (fun kx =>
      (List.zipWith (fun a b => a * b) kx.data s.alpha).sum + s.mu.getD 0 0))

/-- Method `KroneckerSolver.cg_prod` (lines 172-179): the implicit Newton system
`p ↦ p + W^{1/2} ⊙ (K (W^{1/2} ⊙ p) (+ k_diag ⊙ W^{1/2} ⊙ p))`. -/
def KroneckerSolver.cg_prod (s : KroneckerSolver) (p : List ℚ) : List ℚ :=
  match s.k_diag with
  | none =>
    List.zipWith (fun u v => u + v) p
      (List.zipWith (fun w v => s.sqrtF w * v) s.W
        (kron_mvp s.Ks (List.zipWith (fun w v => s.sqrtF w * v) s.W p)))
  | some d =>
    let Wp := List.zipWith (fun w v => s.sqrtF w * v) s.W p
    List.zipWith (fun u v => u + v) p
      (List.zipWith (fun w v => s.sqrtF w * v) s.W
        (List.zipWith (fun u v => u + v) (kron_mvp s.Ks Wp)
          (List.zipWith (fun u v => u * v) d Wp)))

/-- The line search as the specification words it: candidate `k`
(0-indexed) uses step size `5 * tau ^ k`; with the loop counter at
`t = k + 1` the search continues exactly while `t < 20` and
`psi_prev - psi_candidate < step_size * t` (the candidate objective
starts at `sys.float_info.max`); the running minimum objective and the
step that achieved it are returned, `optStep` starting at `0.0`. -/
def lineSearchSpecLoop (s : KroneckerSolver) (y mu alpha deltaAlpha : List ℚ)
    (objPrev : ℚ) : Nat → Nat → ℚ → ℚ → ℚ → ℚ × ℚ
  | 0, _k, _last, minObj, optStep => (minObj, optStep)
  | fuel + 1, k, last, minObj, optStep =>
    if (k + 1 < 20) ∧ (objPrev - last < 5 * s.tau ^ k * ((k : ℚ) + 1)) then
      if cand_objective s y mu alpha deltaAlpha (5 * s.tau ^ k) < minObj then
        lineSearchSpecLoop s y mu alpha deltaAlpha objPrev fuel (k + 1)
          (cand_objective s y mu alpha deltaAlpha (5 * s.tau ^ k))
          (cand_objective s y mu alpha deltaAlpha (5 * s.tau ^ k)) (5 * s.tau ^ k)
      else
        lineSearchSpecLoop s y mu alpha deltaAlpha objPrev fuel (k + 1)
          (cand_objective s y mu alpha deltaAlpha (5 * s.tau ^ k)) minObj optStep
    else (minObj, optStep)

/-- Entry point of the specification-side line search: candidate index 0,
last objective `sys.float_info.max`, minimum the previous objective,
optimal step `0.0`. -/
def lineSearchSpec (s : KroneckerSolver) (y mu alpha deltaAlpha : List ℚ)
    (objPrev : ℚ) : ℚ × ℚ :=
  lineSearchSpecLoop s y mu alpha deltaAlpha objPrev 20 0 fmax objPrev 0

/-- IEEE-style addition: `none` models any non-finite value. -/
def qadd : Option ℚ → Option ℚ → Option ℚ
  | some a, some b => some (a + b)
  | _, _ => none

/-- IEEE-style multiplication (non-finite operands poison the result;
`inf * 0 = NaN` is covered by collapsing all non-finite values to `none`). -/
def qmul : Option ℚ → Option ℚ → Option ℚ
  | some a, some b => some (a * b)
  | _, _ => none

/-- IEEE-style division: a zero denominator yields `±inf`/`NaN`,
i.e. a non-finite artifact. -/
def qdiv : Option ℚ → Option ℚ → Option ℚ
  | some a, some b => if b = 0 then none else some (a / b)
  | _, _ => none

/-- Models `tf.greater(a, c)`: comparisons with NaN are false. -/
def qgt (a : Option ℚ) (c : ℚ) : Bool :=
  match a with
  | some v => decide (v > c)
  | none => false

/-- Models `tf.reduce_sum` over IEEE-style scalars. -/
def qsum (l : List (Option ℚ)) : Option ℚ := l.foldr qadd (some 0)

/-- Line 127 over IEEE-style scalars: the conditional Newton update
`alpha + delta_alpha * step_size` when `delta > 1e-5`. -/
def alphaCondUpdate (delta : Option ℚ) (alpha deltaAlpha : List (Option ℚ))
    (stepSize : Option ℚ) : List (Option ℚ) :=
  if qgt delta (1/100000) then
    List.zipWith (fun a d => qadd a (qmul d stepSize)) alpha deltaAlpha
  else alpha

/-- Models `tf.where(tf.is_nan(l), c, l)`: replace every non-finite entry by `c`. -/
def nanWhere (l : List (Option ℚ)) (c : ℚ) : List (Option ℚ) :=
  l.map (fun v => match v with | none => some c | some q => some q)

/-- Lines 127-128 together: conditional update followed by the NaN floor
at `1e-9`. -/
def alphaUpdateNaN (delta : Option ℚ) (alpha deltaAlpha : List (Option ℚ))
    (stepSize : Option ℚ) : List (Option ℚ) :=
  nanWhere (alphaCondUpdate delta alpha deltaAlpha stepSize) (1/1000000000)

/-- The CG loop variables over IEEE-style scalars (for the behaviour of
`cg_body` at a vanishing step-size denominator). -/
structure CGStateF where
  p : List (Option ℚ)
  count : Nat
  x : List (Option ℚ)
  r : List (Option ℚ)
  max_it : Nat
  precondition : Option (List (Option ℚ))
  z : List (Option ℚ)

/-- Model of `cg_body` (lines 365-406) over IEEE-style scalars: identical to
`CGOptimizer.cg_body` except that the two divisions follow IEEE
semantics (`qdiv`), so a vanishing denominator produces a non-finite
artifact instead of an error. -/
def cg_body_f (prod : List (Option ℚ) → List (Option ℚ)) (st : CGStateF) : CGStateF :=
  let count := st.count + 1
  let Bp := prod st.p
  let norm_k := match st.precondition with
    | some _ => qsum (List.zipWith qmul st.r st.z)
    | none => qsum (List.zipWith qmul st.r st.r)
  let alpha := qdiv norm_k (qsum (List.zipWith qmul Bp st.p))
  let x := List.zipWith qadd st.x (st.p.map (fun v => qmul alpha v))
  let r := List.zipWith (fun a b => qadd a (qmul (some (-1)) b)) st.r (Bp.map (fun v => qmul alpha v))
  let z := match st.precondition with
    | some pc => List.zipWith (fun c ri => qmul (qdiv (some 1) c) ri) pc r
    | none => st.z
  let norm_next := match st.precondition with
    | some _ => qsum (List.zipWith qmul z r)
    | none => qsum (List.zipWith qmul r r)
  let beta := qdiv norm_next norm_k
  let p := match st.precondition with
    | some _ => List.zipWith qadd z (st.p.map (fun v => qmul beta v))
    | none => List.zipWith qadd r (st.p.map (fun v => qmul beta v))
  { st with p := p, count := count, x := x, r := r, z := z }

/-- Masked sum as the specification words it: entries at `true` mask positions
contribute, all others contribute zero; without a mask, the plain sum. -/
def maskedSum (mask : Option (List Bool)) (terms : List ℚ) : ℚ :=
  match mask with
  | none => terms.sum
  | some m => (List.zipWith (fun b v => if b then v else 0) m terms).sum

theorem maskF_nil (m : List Bool) : maskF m [] = [] := by
  cases m <;> rfl

theorem maskF_cons (b : Bool) (bs : List Bool) (x : ℚ) (xs : List ℚ) :
    maskF (b :: bs) (x :: xs) = if b then x :: maskF bs xs else maskF bs xs := by
  cases b <;> simp [maskF, List.zip_cons_cons, List.filterMap_cons]

theorem maskF_sum (m : List Bool) :
    ∀ w : List ℚ, (maskF m w).sum = (List.zipWith (fun b v => if b then v else 0) m w).sum := by
  induction m with
  | nil => intro w; rfl
  | cons b bs ih =>
    intro w
    cases w with
    | nil => rw [maskF_nil]; rfl
    | cons x xs =>
      rw [maskF_cons]
      cases b with
      | true => simp [List.sum_cons, ih xs]
      | false => simp [List.sum_cons, ih xs]

theorem maskF_zipWith (g : ℚ → ℚ → ℚ) (m : List Bool) :
    ∀ u v : List ℚ,
      maskF m (List.zipWith g u v) = List.zipWith g (maskF m u) (maskF m v) := by
  induction m with
  | nil => intro u v; rfl
  | cons b bs ih =>
    intro u v
    cases u with
    | nil => simp [maskF_nil]
    | cons a as =>
      cases v with
      | nil => simp [maskF_nil]
      | cons c cs =>
        rw [List.zipWith_cons_cons, maskF_cons, maskF_cons, maskF_cons]
        cases b with
        | true => simp [List.zipWith_cons_cons, ih as cs]
        | false => simp [ih as cs]

theorem maskF_map (h : ℚ → ℚ) (m : List Bool) :
    ∀ l : List ℚ, maskF m (l.map h) = (maskF m l).map h := by
  induction m with
  | nil => intro l; rfl
  | cons b bs ih =>
    intro l
    cases l with
    | nil => simp [maskF_nil]
    | cons x xs =>
      rw [List.map_cons, maskF_cons, maskF_cons]
      cases b with
      | true => simp [ih xs]
      | false => simp [ih xs]

theorem zipWith_left_id (f : ℚ → ℚ → ℚ) (hf : ∀ a b, f a b = a) :
    ∀ (u v : List ℚ), u.length ≤ v.length → List.zipWith f u v = u := by
  intro u
  induction u with
  | nil => intro v _; rfl
  | cons a as ih =>
    intro v hv
    cases v with
    | nil => simp at hv
    | cons b bs =>
      simp only [List.zipWith, hf]
      simp only [List.length_cons, Nat.succ_le_succ_iff] at hv
      rw [ih bs hv]

theorem zipWith_congr_fun (f g : ℚ → ℚ → ℚ) (hfg : ∀ a b, f a b = g a b) :
    ∀ (u v : List ℚ), List.zipWith f u v = List.zipWith g u v := by
  intro u
  induction u with
  | nil => intro v; rfl
  | cons a as ih =>
    intro v
    cases v with
    | nil => rfl
    | cons b bs => simp only [List.zipWith, hfg]; rw [ih bs]

/-- A minimal concrete likelihood for witnesses: zero log-likelihood,
zero gradient, constant curvature `-1` (so `W = 1`). -/
def likeW : Likelihood := ⟨fun _ _ => 0, fun _ _ => 0, fun _ _ => -1⟩

/-- A minimal concrete solver configuration (one 1x1 factor) used by the
witnesses. -/
def sW : KroneckerSolver :=
  { like := likeW, Ks := [Mat.mk 1 1 [1]], mu := [0], y := [0], X := Mat.mk 1 1 [0],
    tau := 1/2, k_diag := none, mask := none,
    sqrtF := fun q => q, logF := fun q => q, eigF := fun K => K.data,
    kernelEval := fun _ _ => Mat.mk 0 0 [],
    alpha := [0], f := [0], W := [1], grads := [0] }

/-- Solver `sW` with a diagonal nugget configured. -/
def sK : KroneckerSolver := { sW with k_diag := some [1] }

/-- A concrete CG optimizer whose operator annihilates everything, so the
residual threshold is never met. -/
def oW : CGOptimizer := ⟨fun _ => [0]⟩

/-- Claim C1 (code bug, evaluated at the failing input):  For the D = 2
factor list with unequal sizes `2x2` and `3x3` and `v = e_1`,
`kron_mvp` returns `e_4` while the dense product `kron_list(Ks) · v` is
`e_1`: the loop of lines 546-552 reshapes with the fixed shape
`[V_rows, V_cols] = [2, 3]`, which scrambles the axis layout whenever
the factor sizes differ. -/
theorem kron_mvp_unequal_factors_eval :
    kron_mvp [Mat.mk 2 2 [1, 0, 0, 0], Mat.mk 3 3 [1, 0, 0, 0, 1, 0, 0, 0, 1]]
        [0, 1, 0, 0, 0, 0] = [0, 0, 0, 0, 1, 0] ∧
    (kron_list [Mat.mk 2 2 [1, 0, 0, 0], Mat.mk 3 3 [1, 0, 0, 0, 1, 0, 0, 0, 1]]).map
        (fun M => matVec M [0, 1, 0, 0, 0, 0]) = some [0, 1, 0, 0, 0, 0] ∧
    kron_mvp [Mat.mk 2 2 [1, 0, 0, 0], Mat.mk 3 3 [1, 0, 0, 0, 1, 0, 0, 0, 1]]
        [0, 1, 0, 0, 0, 0] ≠ [0, 1, 0, 0, 0, 0] := by
  have h1 : kron_mvp [Mat.mk 2 2 [1, 0, 0, 0], Mat.mk 3 3 [1, 0, 0, 0, 1, 0, 0, 0, 1]]
      [0, 1, 0, 0, 0, 0] = [0, 0, 0, 0, 1, 0] := by
    norm_num [kron_mvp, Mat.transpose, matmul, Mat.entry, List.range_succ, List.getD]
  refine ⟨h1, ?_, ?_⟩
  · norm_num [kron_list, kron, matVec, hconcat, vconcat, smulM, Mat.rowAt, Mat.entry,
      Mat.transpose, List.range_succ, List.getD]
  · rw [h1]
    norm_num

/-- Claim C3 (code bug): the claimed update-or-stall behaviour of `step`
(`alpha <- alpha + delta_alpha * step_size` applied exactly when
`psi_prev - psi > 1e-5`, otherwise `alpha` left unchanged — a stall, not
a failure) is never reached in the committed code: the CG solve at
lines 111-114 goes through the `CGOptimizer()` of line 44, whose
`cg_prod` callback is `None`, so every invocation of `step` raises
`TypeError` at line 426 before the line-127 update executes — every
iteration is a failure, not a stall. -/
theorem step_always_raises (s : KroneckerSolver) (max_it it : Nat) (prev delta : ℚ) :
    s.step max_it it prev delta = none := rfl

/-- Claim C5: The CG loop is entered with `max_it = 2 * len(b)` and that
bound is carried unchanged through every iteration; the guard
`cg_converged` is false as soon as the squared residual sum is below
`1e-5` or the iteration count has reached the bound; and `cg` returns
exactly the solution component of the final loop state — no convergence
flag — whether or not the residual threshold was ever met. -/
theorem cg_termination_and_return (o : CGOptimizer) (b : List ℚ)
    (x0 precondition : Option (List ℚ)) :
    (∀ st : CGState,
      (List.zipWith (fun u v => u * v) st.r st.r).sum < 1/100000 ∨ st.max_it ≤ st.count →
      CGOptimizer.cg_converged st = false) ∧
    o.cg b x0 precondition = (o.cgLoop b x0 precondition).x ∧
    (o.cgLoop b x0 precondition).max_it = 2 * b.length := by
  refine ⟨?_, rfl, ?_⟩
  · intro st h
    unfold CGOptimizer.cg_converged
    rcases h with h | h
    · have hnot : ¬ ((List.zipWith (fun u v => u * v) st.r st.r).sum > (1:ℚ)/100000) :=
        not_lt.mpr (le_of_lt h)
      rw [decide_eq_false hnot, Bool.false_and]
    · have hnot : ¬ (st.count < st.max_it) := not_lt.mpr h
      rw [decide_eq_false hnot, Bool.and_false]
  · unfold CGOptimizer.cgLoop
    exact whileLoop_inv (fun st : CGState => st.max_it = 2 * b.length) _ _
      (fun st h => by simpa [CGOptimizer.cg_body] using h) _ _ rfl

theorem cg_termination_and_return_witness :
    CGOptimizer.cg_converged ⟨[], 2, [], [1], 2, none, []⟩ = false ∧
    oW.cg [1] none none = (oW.cgLoop [1] none none).x ∧
    (oW.cgLoop [1] none none).max_it = 2 := by
  refine ⟨(cg_termination_and_return oW [1] none none).1 _ (Or.inr (by decide)),
          (cg_termination_and_return oW [1] none none).2.1, ?_⟩
  have h := (cg_termination_and_return oW [1] none none).2.2
  simpa using h

/-- Claim C9 (code bug):  `predict_mean` never returns a value: line 330
iterates the integer `self.X.shape[1]` itself instead of
`range(self.X.shape[1])`, raising `TypeError` on every call before any
covariance is computed. -/
theorem predict_mean_always_fails (s : KroneckerSolver) (x_new : Mat) :
    s.predict_mean x_new = none := rfl

/-- Helper: with the committed wiring every `step` call raises
(see `KroneckerSolver.cgZ`). -/
theorem step_none (s : KroneckerSolver) (max_it it : Nat) (prev delta : ℚ) :
    s.step max_it it prev delta = none := rfl

/-- Helper: `sys.float_info.max` clears the `1e-5` threshold. -/
theorem fmax_gt : fmax > (1:ℚ)/100000 := by norm_num [fmax]

/-- Helper: since the Newton loop body raises on entry, the loop returns
a state only when its guard fails immediately, and then the state is the
initial one. -/
theorem runLoop_some_eq (s : KroneckerSolver) (max_it : Nat)
    (fin : KroneckerSolver × Nat × Nat × ℚ × ℚ) (h : s.runLoop max_it = some fin) :
    fin = (s, max_it, 0, fmax, fmax) := by
  unfold KroneckerSolver.runLoop whileLoopE at h
  split at h
  · simp [KroneckerSolver.step, KroneckerSolver.cgZ, KroneckerSolver.optCgProd] at h
  · exact (Option.some.inj h).symm

/-- Claim C10: whenever `run(max_it)` returns, the stored latent vector
is `kron_mvp(Ks, alpha) + mu` with no `alpha ⊙ k_diag` contribution even
when `k_diag` is configured; in the committed code that happens only for
`max_it = 0`, since every Newton iteration raises `TypeError` at the CG
solve (`run(max_it)` is `none` for `max_it >= 1`); and the `f` that each
iteration computes and assigns for its objective and gradient evaluation
(lines 83-86, executed before the raise) is
`kron_mvp(Ks, alpha) + mu + alpha ⊙ k_diag`. -/
theorem run_final_f_omits_k_diag (s : KroneckerSolver) (d : List ℚ)
    (hk : s.k_diag = some d) :
    (∀ (max_it : Nat) (fin : KroneckerSolver × Nat × Nat × ℚ × ℚ),
      s.run max_it = some fin →
      fin.1.f = List.zipWith (fun u v => u + v) (kron_mvp s.Ks fin.1.alpha) s.mu) ∧
    (∀ max_it : Nat, 1 ≤ max_it → s.run max_it = none) ∧
    s.newF =
      List.zipWith (fun u v => u + v)
        (List.zipWith (fun u v => u + v) (kron_mvp s.Ks s.alpha) s.mu)
        (List.zipWith (fun u v => u * v) s.alpha d) := by
  refine ⟨?_, ?_, ?_⟩
  · intro max_it fin hfin
    unfold KroneckerSolver.run at hfin
    rw [Option.map_eq_some'] at hfin
    obtain ⟨fin0, h0, hg⟩ := hfin
    have he := runLoop_some_eq s max_it fin0 h0
    subst he
    subst hg
    rfl
  · intro max_it hm
    cases max_it with
    | zero => exact absurd hm (by omega)
    | succ n =>
      unfold KroneckerSolver.run KroneckerSolver.runLoop whileLoopE
      have hc : KroneckerSolver.conv (n + 1) 0 fmax = true := by
        unfold KroneckerSolver.conv
        rw [decide_eq_true (Nat.succ_pos n), decide_eq_true fmax_gt]
        rfl
      dsimp only
      rw [hc]
      simp [KroneckerSolver.step, KroneckerSolver.cgZ, KroneckerSolver.optCgProd]
  · show s.newF = _
    unfold KroneckerSolver.newF latentF
    rw [hk]

theorem run_final_f_omits_k_diag_witness :
    (({ sK with f := [0], grads := [0] } : KroneckerSolver), 0, 0, fmax, fmax).1.f =
      List.zipWith (fun u v => u + v)
        (kron_mvp sK.Ks
          (({ sK with f := [0], grads := [0] } : KroneckerSolver), 0, 0, fmax, fmax).1.alpha)
        sK.mu ∧
    sK.run 1 = none ∧
    sK.newF =
      List.zipWith (fun u v => u + v)
        (List.zipWith (fun u v => u + v) (kron_mvp sK.Ks sK.alpha) sK.mu)
        (List.zipWith (fun u v => u * v) sK.alpha [1]) := by
  have hloop : sK.runLoop 0 = some (sK, 0, 0, fmax, fmax) := by
    unfold KroneckerSolver.runLoop
    rw [whileLoopE]
    have hc : KroneckerSolver.conv 0 0 fmax = false := by
      unfold KroneckerSolver.conv
      rw [decide_eq_false (by omega : ¬ (0 < 0)), Bool.false_and]
    dsimp only
    rw [hc]
    simp
  have hrun : sK.run 0 =
      some (({ sK with f := [0], grads := [0] } : KroneckerSolver), 0, 0, fmax, fmax) := by
    unfold KroneckerSolver.run
    rw [hloop]
    norm_num [sK, sW, likeW, kron_mvp, Mat.transpose, matmul, Mat.entry,
      List.range_succ, List.getD]
  exact ⟨(run_final_f_omits_k_diag sK [1] rfl).1 0 _ hrun,
         (run_final_f_omits_k_diag sK [1] rfl).2.1 1 (by omega),
         (run_final_f_omits_k_diag sK [1] rfl).2.2⟩

/-- Source side and specification side of the line-search loop coincide:
from a state with step size `5 * tau ^ k` and counter `t = k + 1`, the
`tf.while_loop` over `converge_cond`/`search_step` computes exactly the
specification-side recursion. -/
theorem ls_loop_eq_spec (s : KroneckerSolver) (y mu alpha deltaAlpha : List ℚ)
    (objPrev gradNorm : ℚ) :
    ∀ (fuel k : Nat) (last minObj optStep : ℚ),
      ((whileLoop KroneckerSolver.converge_cond s.search_step fuel
          { objPrev := objPrev, objSearch := last, minObj := minObj, alpha := alpha,
            deltaAlpha := deltaAlpha, y := y, stepSize := 5 * s.tau ^ k,
            gradNorm := gradNorm, maxIt := 20, t := k + 1, mu := mu,
            optStep := optStep }).minObj,
        (whileLoop KroneckerSolver.converge_cond s.search_step fuel
          { objPrev := objPrev, objSearch := last, minObj := minObj, alpha := alpha,
            deltaAlpha := deltaAlpha, y := y, stepSize := 5 * s.tau ^ k,
            gradNorm := gradNorm, maxIt := 20, t := k + 1, mu := mu,
            optStep := optStep }).optStep) =
      lineSearchSpecLoop s y mu alpha deltaAlpha objPrev fuel k last minObj optStep := by
  intro fuel
  induction fuel with
  | zero => intro k last minObj optStep; rfl
  | succ n ih =>
    intro k last minObj optStep
    have hguard : KroneckerSolver.converge_cond
        { objPrev := objPrev, objSearch := last, minObj := minObj, alpha := alpha,
          deltaAlpha := deltaAlpha, y := y, stepSize := 5 * s.tau ^ k,
          gradNorm := gradNorm, maxIt := 20, t := k + 1, mu := mu, optStep := optStep } =
        decide ((k + 1 < 20) ∧ (objPrev - last < 5 * s.tau ^ k * ((k : ℚ) + 1))) := by
      unfold KroneckerSolver.converge_cond
      rw [Bool.decide_and]
      push_cast
      rfl
    have hbody : s.search_step
        { objPrev := objPrev, objSearch := last, minObj := minObj, alpha := alpha,
          deltaAlpha := deltaAlpha, y := y, stepSize := 5 * s.tau ^ k,
          gradNorm := gradNorm, maxIt := 20, t := k + 1, mu := mu, optStep := optStep } =
        { objPrev := objPrev,
          objSearch := cand_objective s y mu alpha deltaAlpha (5 * s.tau ^ k),
          minObj := if cand_objective s y mu alpha deltaAlpha (5 * s.tau ^ k) < minObj
            then cand_objective s y mu alpha deltaAlpha (5 * s.tau ^ k) else minObj,
          alpha := alpha, deltaAlpha := deltaAlpha, y := y,
          stepSize := 5 * s.tau ^ (k + 1), gradNorm := gradNorm, maxIt := 20,
          t := (k + 1) + 1, mu := mu,
          optStep := if cand_objective s y mu alpha deltaAlpha (5 * s.tau ^ k) < minObj
            then 5 * s.tau ^ k else optStep } := by
      unfold KroneckerSolver.search_step cand_objective
      simp only [LS.mk.injEq, gt_iff_lt, true_and, and_true]
      ring_nf
    by_cases hc : (k + 1 < 20) ∧ (objPrev - last < 5 * s.tau ^ k * ((k : ℚ) + 1))
    · rw [whileLoop, hguard, decide_eq_true hc]
      rw [lineSearchSpecLoop, if_pos hc]
      simp only [if_true]
      rw [hbody]
      by_cases hlt : cand_objective s y mu alpha deltaAlpha (5 * s.tau ^ k) < minObj
      · rw [if_pos hlt, if_pos hlt, if_pos hlt]
        exact ih (k + 1) _ _ _
      · rw [if_neg hlt, if_neg hlt, if_neg hlt]
        exact ih (k + 1) _ _ _
    · rw [whileLoop, hguard, decide_eq_false hc]
      rw [lineSearchSpecLoop, if_neg hc]
      simp only [Bool.false_eq_true, if_false]

/-- Claim C2: With `max_it = 20`, `line_search` equals the
specification-side search (steps start at 5.0 and decay geometrically by
`tau`; the loop continues exactly while `t < 20` and
`psi_prev - psi_candidate < step_size * t`; the pair (minimum objective
seen, step that achieved it) is returned); and when no candidate
strictly improves on the starting objective the returned step is 0.0. -/
theorem line_search_spec_equiv (s : KroneckerSolver) (alpha deltaAlpha y : List ℚ)
    (objPrev : ℚ) (mu : List ℚ) :
    s.line_search alpha deltaAlpha y objPrev 20 mu =
      lineSearchSpec s y mu alpha deltaAlpha objPrev ∧
    ((∀ c : ℚ, objPrev ≤ cand_objective s y mu alpha deltaAlpha c) →
      (s.line_search alpha deltaAlpha y objPrev 20 mu).2 = 0) := by
  constructor
  · have h := ls_loop_eq_spec s y mu alpha deltaAlpha objPrev
      ((List.zipWith (fun a b => a * b) alpha alpha).sum) 20 0 fmax objPrev 0
    simp only [pow_zero, mul_one, Nat.zero_add] at h
    unfold KroneckerSolver.line_search lineSearchSpec
    exact h
  · intro hcand
    have hpres : ∀ st : LS,
        (st.alpha = alpha ∧ st.deltaAlpha = deltaAlpha ∧ st.y = y ∧ st.mu = mu ∧
         st.minObj = objPrev ∧ st.optStep = 0) →
        ((s.search_step st).alpha = alpha ∧ (s.search_step st).deltaAlpha = deltaAlpha ∧
         (s.search_step st).y = y ∧ (s.search_step st).mu = mu ∧
         (s.search_step st).minObj = objPrev ∧ (s.search_step st).optStep = 0) := by
      rintro st ⟨h1, h2, h3, h4, h5, h6⟩
      have hobj : objective s st.y st.mu
          (List.zipWith (fun a d => a + st.stepSize * d) st.alpha st.deltaAlpha)
          (latentF s st.mu
            (List.zipWith (fun a d => a + st.stepSize * d) st.alpha st.deltaAlpha)) =
          cand_objective s y mu alpha deltaAlpha st.stepSize := by
        rw [h1, h2, h3, h4]; rfl
      have hge : ¬ (st.minObj > objective s st.y st.mu
          (List.zipWith (fun a d => a + st.stepSize * d) st.alpha st.deltaAlpha)
          (latentF s st.mu
            (List.zipWith (fun a d => a + st.stepSize * d) st.alpha st.deltaAlpha))) := by
        rw [hobj, h5]
        exact not_lt.mpr (hcand st.stepSize)
      simp only [KroneckerSolver.search_step, if_neg hge]
      exact ⟨h1, h2, h3, h4, h5, h6⟩
    have hfin := whileLoop_inv
      (fun st : LS => st.alpha = alpha ∧ st.deltaAlpha = deltaAlpha ∧ st.y = y ∧
        st.mu = mu ∧ st.minObj = objPrev ∧ st.optStep = 0)
      KroneckerSolver.converge_cond s.search_step hpres 20
      { objPrev := objPrev, objSearch := fmax, minObj := objPrev, alpha := alpha,
        deltaAlpha := deltaAlpha, y := y, stepSize := 5,
        gradNorm := (List.zipWith (fun a b => a * b) alpha alpha).sum,
        maxIt := 20, t := 1, mu := mu, optStep := 0 }
      ⟨rfl, rfl, rfl, rfl, rfl, rfl⟩
    exact hfin.2.2.2.2.2

theorem line_search_spec_equiv_witness :
    sW.line_search [0] [] [0] 0 20 [0] = lineSearchSpec sW [0] [0] [0] [] 0 ∧
    (sW.line_search [0] [] [0] 0 20 [0]).2 = 0 :=
  ⟨(line_search_spec_equiv sW [0] [] [0] 0 [0]).1,
   (line_search_spec_equiv sW [0] [] [0] 0 [0]).2 (by
     intro c
     simp [cand_objective, objective, latentF, kron_mvp, sW, likeW, Mat.transpose,
       List.range_zero])⟩

/-- The objective as a function of the dual variable alone: the common
quantity `psi` that `step` computes at `self.alpha` (lines 83-97) and the
line search computes at each candidate (lines 202-219). -/
def psiAt (s : KroneckerSolver) (a : List ℚ) : ℚ :=
  objective s s.y s.mu a (latentF s s.mu a)

/-- Claim C4 (code bug): the minimum tracking of the line search does
guarantee that an update with the returned step never increases the
objective — for any Newton direction, `psi` at
`alpha + optStep * delta_alpha` is at most `psi` at `alpha` — but in the
committed code no Newton iteration is ever accepted: every `step` raises
`TypeError` at the CG solve before the acceptance test, so the claimed
invariant governs no execution. -/
theorem accepted_step_objective_nonincrease (s : KroneckerSolver) (deltaAlpha : List ℚ)
    (h : s.alpha.length ≤ deltaAlpha.length) :
    psiAt s (List.zipWith
        (fun a d => a + d * (s.line_search s.alpha deltaAlpha s.y (psiAt s s.alpha) 20 s.mu).2)
        s.alpha deltaAlpha) ≤ psiAt s s.alpha ∧
    (∀ (max_it it : Nat) (prev delta : ℚ), s.step max_it it prev delta = none) := by
  constructor
  · have hinit : psiAt s s.alpha = cand_objective s s.y s.mu s.alpha deltaAlpha 0 := by
      unfold cand_objective
      rw [zipWith_left_id (fun a d => a + 0 * d) (fun a b => by ring) _ _ h]
      rfl
    have hpres : ∀ st : LS,
        (st.alpha = s.alpha ∧ st.deltaAlpha = deltaAlpha ∧ st.y = s.y ∧ st.mu = s.mu ∧
         st.minObj = cand_objective s s.y s.mu s.alpha deltaAlpha st.optStep ∧
         st.minObj ≤ psiAt s s.alpha) →
        ((s.search_step st).alpha = s.alpha ∧ (s.search_step st).deltaAlpha = deltaAlpha ∧
         (s.search_step st).y = s.y ∧ (s.search_step st).mu = s.mu ∧
         (s.search_step st).minObj =
           cand_objective s s.y s.mu s.alpha deltaAlpha (s.search_step st).optStep ∧
         (s.search_step st).minObj ≤ psiAt s s.alpha) := by
      rintro st ⟨h1, h2, h3, h4, h5, h6⟩
      have hobj : objective s st.y st.mu
          (List.zipWith (fun a d => a + st.stepSize * d) st.alpha st.deltaAlpha)
          (latentF s st.mu
            (List.zipWith (fun a d => a + st.stepSize * d) st.alpha st.deltaAlpha)) =
          cand_objective s s.y s.mu s.alpha deltaAlpha st.stepSize := by
        rw [h1, h2, h3, h4]; rfl
      by_cases hlt : st.minObj > objective s st.y st.mu
          (List.zipWith (fun a d => a + st.stepSize * d) st.alpha st.deltaAlpha)
          (latentF s st.mu
            (List.zipWith (fun a d => a + st.stepSize * d) st.alpha st.deltaAlpha))
      · simp only [KroneckerSolver.search_step, if_pos hlt]
        exact ⟨h1, h2, h3, h4, hobj, le_trans (le_of_lt hlt) h6⟩
      · simp only [KroneckerSolver.search_step, if_neg hlt]
        exact ⟨h1, h2, h3, h4, h5, h6⟩
    have hfin := whileLoop_inv
      (fun st : LS => st.alpha = s.alpha ∧ st.deltaAlpha = deltaAlpha ∧ st.y = s.y ∧
        st.mu = s.mu ∧
        st.minObj = cand_objective s s.y s.mu s.alpha deltaAlpha st.optStep ∧
        st.minObj ≤ psiAt s s.alpha)
      KroneckerSolver.converge_cond s.search_step hpres 20
      { objPrev := psiAt s s.alpha, objSearch := fmax, minObj := psiAt s s.alpha,
        alpha := s.alpha, deltaAlpha := deltaAlpha, y := s.y, stepSize := 5,
        gradNorm := (List.zipWith (fun a b => a * b) s.alpha s.alpha).sum,
        maxIt := 20, t := 1, mu := s.mu, optStep := 0 }
      ⟨rfl, rfl, rfl, rfl, hinit, le_refl _⟩
    have hcomm : List.zipWith
        (fun a d => a + d * (s.line_search s.alpha deltaAlpha s.y (psiAt s s.alpha) 20 s.mu).2)
          s.alpha deltaAlpha =
        List.zipWith
          (fun a d => a + (s.line_search s.alpha deltaAlpha s.y (psiAt s s.alpha) 20 s.mu).2 * d)
          s.alpha deltaAlpha :=
      zipWith_congr_fun _ _ (fun a b => by ring) _ _
    have heq : psiAt s (List.zipWith
        (fun a d => a + (s.line_search s.alpha deltaAlpha s.y (psiAt s s.alpha) 20 s.mu).2 * d)
        s.alpha deltaAlpha) =
        cand_objective s s.y s.mu s.alpha deltaAlpha
          (s.line_search s.alpha deltaAlpha s.y (psiAt s s.alpha) 20 s.mu).2 := rfl
    rw [hcomm, heq]
    show cand_objective s s.y s.mu s.alpha deltaAlpha
        ((whileLoop KroneckerSolver.converge_cond s.search_step 20
          { objPrev := psiAt s s.alpha, objSearch := fmax, minObj := psiAt s s.alpha,
            alpha := s.alpha, deltaAlpha := deltaAlpha, y := s.y, stepSize := 5,
            gradNorm := (List.zipWith (fun a b => a * b) s.alpha s.alpha).sum,
            maxIt := 20, t := 1, mu := s.mu, optStep := 0 }).optStep) ≤ psiAt s s.alpha
    rw [← hfin.2.2.2.2.1]
    exact hfin.2.2.2.2.2
  · intro max_it it prev delta
    rfl

theorem accepted_step_objective_nonincrease_witness :
    psiAt sW (List.zipWith
        (fun a d => a + d * (sW.line_search sW.alpha [0] sW.y (psiAt sW sW.alpha) 20 sW.mu).2)
        sW.alpha [0]) ≤ psiAt sW sW.alpha ∧
    sW.step 1 0 fmax fmax = none :=
  ⟨(accepted_step_objective_nonincrease sW [0] (by decide)).1,
   (accepted_step_objective_nonincrease sW [0] (by decide)).2 1 0 fmax fmax⟩

theorem nanWhere_spec (c : ℚ) :
    ∀ (l : List (Option ℚ)) (i : Nat),
      (l.getD i none = none → i < l.length → (nanWhere l c).getD i none = some c) ∧
      (∀ q : ℚ, l.getD i none = some q → (nanWhere l c).getD i none = some q) := by
  intro l
  induction l with
  | nil =>
    intro i
    constructor
    · intro _ hi
      simp at hi
    · intro q hq
      simp [List.getD] at hq
  | cons x xs ih =>
    intro i
    cases i with
    | zero =>
      constructor
      · intro hx _
        cases x with
        | none => rfl
        | some a => simp [List.getD] at hx
      · intro q hq
        cases x with
        | none => simp [List.getD] at hq
        | some a =>
          simp [List.getD] at hq
          simp [nanWhere, List.getD, hq]
    | succ n =>
      constructor
      · intro hx hi
        have := (ih n).1
        simp only [List.getD_cons_succ] at hx ⊢
        simp only [List.length_cons, Nat.succ_lt_succ_iff] at hi
        simpa [nanWhere] using this hx hi
      · intro q hq
        have := (ih n).2 q
        simp only [List.getD_cons_succ] at hq ⊢
        simpa [nanWhere] using this hq

theorem nanWhere_ne_none (l : List (Option ℚ)) (c : ℚ) :
    ∀ v ∈ nanWhere l c, v ≠ none := by
  intro v hv
  unfold nanWhere at hv
  rw [List.mem_map] at hv
  obtain ⟨u, _, hu⟩ := hv
  cases u <;> simp [← hu]

/-- Claim C7: Lines 127-128: the NaN floor runs right after every
conditional Newton update; every non-finite entry of the updated `alpha`
is replaced by `1e-9`, every finite entry is kept, and the result has no
non-finite entry at all — the recovery is local and total, no error
reaches the caller. -/
theorem alpha_nan_floor (delta : Option ℚ) (alpha deltaAlpha : List (Option ℚ))
    (stepSize : Option ℚ) (i : Nat) :
    alphaUpdateNaN delta alpha deltaAlpha stepSize =
      nanWhere (alphaCondUpdate delta alpha deltaAlpha stepSize) (1/1000000000) ∧
    ((alphaCondUpdate delta alpha deltaAlpha stepSize).getD i none = none →
      i < (alphaCondUpdate delta alpha deltaAlpha stepSize).length →
      (alphaUpdateNaN delta alpha deltaAlpha stepSize).getD i none =
        some (1/1000000000)) ∧
    (∀ q : ℚ, (alphaCondUpdate delta alpha deltaAlpha stepSize).getD i none = some q →
      (alphaUpdateNaN delta alpha deltaAlpha stepSize).getD i none = some q) ∧
    (∀ v ∈ alphaUpdateNaN delta alpha deltaAlpha stepSize, v ≠ none) := by
  refine ⟨rfl, ?_, ?_, ?_⟩
  · exact (nanWhere_spec (1/1000000000) (alphaCondUpdate delta alpha deltaAlpha stepSize) i).1
  · exact (nanWhere_spec (1/1000000000) (alphaCondUpdate delta alpha deltaAlpha stepSize) i).2
  · exact nanWhere_ne_none _ _

theorem alpha_nan_floor_witness :
    (alphaUpdateNaN (some 1) [none, some 2] [some 0, some 1] (some 1)).getD 0 none =
      some (1/1000000000) :=
  (alpha_nan_floor (some 1) [none, some 2] [some 0, some 1] (some 1) 0).2.1
    (by norm_num [alphaCondUpdate, qgt, qadd, qmul, List.getD])
    (by norm_num [alphaCondUpdate, qgt, qadd, qmul])

theorem zip_qadd_none :
    ∀ (x p : List (Option ℚ)),
      ∀ v ∈ List.zipWith qadd x (p.map (fun u => qmul none u)), v = none := by
  intro x
  induction x with
  | nil => intro p v hv; simp at hv
  | cons a as ih =>
    intro p v hv
    cases p with
    | nil => simp at hv
    | cons b bs =>
      simp only [List.map_cons, List.zipWith_cons_cons, List.mem_cons] at hv
      rcases hv with hv | hv
      · subst hv; cases a <;> cases b <;> rfl
      · exact ih bs v hv

/-- Claim C6 (code bug, behaviour at a vanishing denominator):  When the
step-size denominator `<p, Mp>` of `cg_body` is zero, the unguarded
division produces a non-finite artifact (`inf`/`NaN`) and the body
returns normally with that artifact propagated into every entry of the
iterate `x` — no `SingularSystem` (or any other) error is raised. -/
theorem cg_body_zero_denominator_propagates
    (prod : List (Option ℚ) → List (Option ℚ)) (st : CGStateF)
    (hden : qsum (List.zipWith qmul (prod st.p) st.p) = some 0) :
    ∀ v ∈ (cg_body_f prod st).x, v = none := by
  have hnone : ∀ nk : Option ℚ, qdiv nk (some 0) = none := by
    intro nk
    cases nk with
    | none => rfl
    | some a => simp [qdiv]
  intro v hv
  simp only [cg_body_f] at hv
  rw [hden, hnone] at hv
  exact zip_qadd_none st.x st.p v hv

/-- Concrete CG state with `<p, Mp> = 0` for the C6 witness. -/
def stF : CGStateF := ⟨[some 1], 0, [some 0], [some 1], 2, none, []⟩

theorem cg_body_zero_denominator_propagates_witness :
    (cg_body_f (fun _ => [some 0]) stF).x =
      List.replicate (cg_body_f (fun _ => [some 0]) stF).x.length none := by
  have h := cg_body_zero_denominator_propagates (fun _ => [some 0]) stF
    (by norm_num [qsum, qmul, qadd, stF])
  exact List.eq_replicate_length.mpr h

/-- Claim C8 counterexample: A configuration with a single-dimension kernel
(D = 1, trivial Kronecker): `marginal` produces no value at all, because
`kron_list` unconditionally reads `matrices[1]` (IndexError on a
one-element list), instead of the claimed formula. -/
theorem marginal_single_factor_fails : sW.marginal none = none := rfl

/-- Claim C8 amended: For every configuration whose factor list combines
(at least two factors, so the Kronecker eigenvalue combination `E` is
defined), `marginal` returns
`-1/2 Σ alpha(f - mu) - 1/2 Σ log(1 + eig(K) W) + Σ log_like(y, f)`
with the eigenvalues of `K` combined by `kron_list` from the per-factor
eigenvalues, and — under a mask — all three sums ranging over the masked
entries only. -/
theorem marginal_formula_multifactor (s : KroneckerSolver) (Ks_new : Option (List Mat))
    (E : Mat)
    (hE : kron_list (((match Ks_new with | none => s.Ks | some ks => ks : List Mat)).map
      (fun K => Mat.mk K.rows 1 (s.eigF K))) = some E) :
    s.marginal Ks_new = some
      (-(1/2) * maskedSum s.mask (List.zipWith (fun u v => u * v) s.alpha
          (List.zipWith (fun u v => u - v) s.f s.mu)) -
       (1/2) * maskedSum s.mask ((List.zipWith (fun u v => u * v) E.data s.W).map
          (fun v => s.logF (1 + v))) +
       maskedSum s.mask (List.zipWith s.like.logLike s.y s.f)) := by
  simp only [KroneckerSolver.marginal]
  rw [hE]
  cases hm : s.mask with
  | none => simp [maskedSum]
  | some m =>
    dsimp only
    rw [← maskF_zipWith (fun u v => u - v) m s.f s.mu,
        ← maskF_zipWith (fun u v => u * v) m s.alpha,
        ← maskF_zipWith (fun u v => u * v) m E.data s.W,
        ← maskF_map (fun v => s.logF (1 + v)) m,
        ← maskF_zipWith s.like.logLike m s.y s.f,
        maskF_sum, maskF_sum, maskF_sum]
    rfl

/-- A concrete masked two-factor configuration for the C8 witness. -/
def s8 : KroneckerSolver :=
  { sW with Ks := [Mat.mk 1 1 [2], Mat.mk 2 2 [1, 0, 0, 1]],
            mask := some [true, false], alpha := [1, 2], f := [3, 4], mu := [0, 0],
            W := [1, 1], y := [5, 6], eigF := fun K => List.replicate K.rows 1 }

theorem marginal_formula_multifactor_witness :
    s8.marginal none = some (-(5/2)) := by
  have h := marginal_formula_multifactor s8 none (Mat.mk 2 1 [1, 1]) (by
    norm_num [kron_list, kron, hconcat, vconcat, smulM, Mat.rowAt, Mat.entry, s8, sW,
      List.range_succ, List.getD])
  rw [h]
  norm_num [maskedSum, s8, sW, likeW]
